import Mathlib

/-!
Verification development for the release-notes-server repository.

The TypeScript sources are shallowly embedded below:
  * `parseConventionalCommit`, `mapCommitType` (github.ts)
  * `enrichCommitsWithPRData`'s per-commit merge step (github.ts)
  * `calculateStats`, `groupCommitsByType`, `groupCommitsByScope`,
    `groupCommitsByAuthor`, `formatCommit`, `generateMarkdown`,
    `generatePlainText`, `generateReleaseNotes` (releaseNotes.ts)

Strings are modelled as `List Char` (Unicode code points).  JavaScript
`toLowerCase` is modelled by ASCII case folding (all the tokens the code
compares against are ASCII).  JavaScript string `.length` (UTF-16 code
units) is modelled by `utf16Len`.
-/

namespace RNS

/-- The closed commit-category enumeration `CommitType` from types.ts. -/
inductive CommitType where
  | breaking
  | feature
  | fix
  | docs
  | perf
  | refactor
  | test
  | build
  | other
deriving DecidableEq, Repr

/-- The `ParsedCommit` record from types.ts.  Optional TS fields are
`Option`; `scope`, `description` keep the JS distinction between an
absent field (`none`) and an empty string (`some ""`). -/
structure ParsedCommit where
  sha : String
  type : CommitType
  scope : Option String
  message : String
  description : Option String
  breaking : Bool
  author : String
  date : String
  prNumber : Option Nat
  commitUrl : String
deriving DecidableEq, Repr

/-! ### JavaScript character classes and string primitives -/

/-- JS regex `\s` (also the character class trimmed by `String.trim`). -/
def jsWs (c : Char) : Bool :=
  c = ' ' || c = '\t' || c = '\n' || c = '\x0b' || c = '\x0c' || c = '\r' ||
  c.toNat = 0xa0 || c.toNat = 0x1680 ||
  (0x2000 ≤ c.toNat && c.toNat ≤ 0x200a) ||
  c.toNat = 0x2028 || c.toNat = 0x2029 || c.toNat = 0x202f ||
  c.toNat = 0x205f || c.toNat = 0x3000 || c.toNat = 0xfeff

/-- Characters matched by JS regex `.` (everything but line terminators). -/
def dotChar (c : Char) : Bool :=
  !(c = '\n' || c = '\r' || c.toNat = 0x2028 || c.toNat = 0x2029)

/-- ASCII case folding, modelling JS `toLowerCase` on the ASCII range. -/
def lowerChar (c : Char) : Char := c.toLower

def lowerL (s : List Char) : List Char := s.map lowerChar

/-- `a` starts with `b` (character-exact). -/
def startsWithL : List Char → List Char → Bool
  | [], _ => true
  | _ :: _, [] => false
  | a :: as, b :: bs => a = b && startsWithL as bs

/-- JS `String.includes`: `needle` occurs as a contiguous substring. -/
def hasSub (needle : List Char) : List Char → Bool
  | [] => needle.isEmpty
  | c :: rest => startsWithL needle (c :: rest) || hasSub needle rest

/-- JS `String.trim` on a character list. -/
def jsTrim (s : List Char) : List Char :=
  ((s.dropWhile jsWs).reverse.dropWhile jsWs).reverse

/-- UTF-16 code-unit length of a string, as JS `.length` reports it. -/
def utf16Len (s : List Char) : Nat :=
  (s.map (fun c => if c.toNat < 0x10000 then 1 else 2)).sum

/-- The literal breaking-change marker `BREAKING CHANGE:` searched for
(case-sensitively) by `parseConventionalCommit`. -/
def hasMarker (s : List Char) : Bool :=
  hasSub ("BREAKING CHANGE:".data) s

/-! ### The structured-prefix grammar

Model of the anchored JS regex
`/^(feat|fix|docs|perf|refactor|test|build|chore)(?:\(([^)]+)\))?(!)?:\s*(.+)(?:\n\n([\s\S]*))?$/i`
with JS backtracking semantics (no `m` flag: `^`/`$` anchor at the string
ends; `.` excludes line terminators; `[\s\S]` matches everything). -/

/-- A successful structured match: the alternation branch that matched
(`tokLower`, lower case), the raw captured token slice (`tokenRaw`), the
optional scope capture, the `!` flag, the title capture and the optional
body capture. -/
structure StructMatch where
  tokLower : List Char
  tokenRaw : List Char
  scope : Option (List Char)
  bang : Bool
  title : List Char
  body : Option (List Char)
deriving DecidableEq, Repr

/-- Strip `tok` (already lower case) from the front of `s`,
case-insensitively; return the remainder. -/
def stripToken : List Char → List Char → Option (List Char)
  | [], s => some s
  | _ :: _, [] => none
  | t :: ts, c :: cs => if lowerChar c = t then stripToken ts cs else none

/-- `\s*(.+)(?:\n\n([\s\S]*))?$` attempted at one position (after the
whitespace prefix already consumed): a maximal `.`-run, then either the
end of input or a literal `\n\n` followed by the body capture. -/
def tailAt (s : List Char) : Option (List Char × Option (List Char)) :=
  let t := s.takeWhile dotChar
  let u := s.dropWhile dotChar
  if t.isEmpty then none
  else
    match u with
    | [] => some (t, none)
    | '\n' :: '\n' :: body => some (t, some body)
    | _ => none

/-- Backtracking over the greedy `\s*`: try consuming `k` whitespace
characters first (the greedy engine prefers the longest prefix), then
shorter prefixes. -/
def tailFrom (s : List Char) : Nat → Option (List Char × Option (List Char))
  | 0 => tailAt s
  | k + 1 =>
    match tailAt (s.drop (k + 1)) with
    | some r => some r
    | none => tailFrom s k

/-- Match `\s*(.+)(?:\n\n([\s\S]*))?$` against `s`. -/
def matchTail (s : List Char) : Option (List Char × Option (List Char)) :=
  tailFrom s (s.takeWhile jsWs).length

/-- The literal `:` followed by the tail pattern. -/
def matchColonTail (sc : Option (List Char)) (bang : Bool) (r2 : List Char) :
    Option (Option (List Char) × Bool × List Char × Option (List Char)) :=
  match r2 with
  | ':' :: rest => (matchTail rest).map (fun td => (sc, bang, td.1, td.2))
  | _ => none

/-- The optional `(!)?` followed by the colon and the tail. -/
def matchBangColon (sc : Option (List Char)) (r1 : List Char) :
    Option (Option (List Char) × Bool × List Char × Option (List Char)) :=
  match r1 with
  | '!' :: rest => matchColonTail sc true rest
  | _ => matchColonTail sc false r1

/-- After the category token: the optional scope group `(?:\(([^)]+)\))?`,
the optional `(!)?`, the literal `:` and the tail.  `[^)]+` is a maximal
non-`)` run, so the scope capture is deterministic; skipping the scope
group when a `(` is present cannot succeed because `(` is neither `!`
nor `:`. -/
def matchAfterToken (r : List Char) :
    Option (Option (List Char) × Bool × List Char × Option (List Char)) :=
  match r with
  | '(' :: r1 =>
    let inner := r1.takeWhile (fun c => !(c = ')'))
    match r1.dropWhile (fun c => !(c = ')')) with
    | ')' :: r2 => if inner.isEmpty then none else matchBangColon (some inner) r2
    | _ => none
  | _ => matchBangColon none r

/-- The eight alternation branches, in the order the regex lists them. -/
def recognizedTokens : List (List Char) :=
  ["feat".data, "fix".data, "docs".data, "perf".data,
   "refactor".data, "test".data, "build".data, "chore".data]

/-- Try each alternation branch in order; on a token match whose
continuation fails, backtrack to the next branch (as the regex engine
does). -/
def tryTokens : List (List Char) → List Char → Option StructMatch
  | [], _ => none
  | tok :: more, s =>
    match stripToken tok s with
    | some rest =>
      match matchAfterToken rest with
      | some (sc, bang, t, d) =>
        some ⟨tok, s.take tok.length, sc, bang, t, d⟩
      | none => tryTokens more s
    | none => tryTokens more s

/-- The full anchored regex match of `parseConventionalCommit`. -/
def matchStructured (msg : List Char) : Option StructMatch :=
  tryTokens recognizedTokens msg

/-! ### mapCommitType and parseConventionalCommit -/

/-- The `typeMap` lookup inside `mapCommitType` (keys already lower
case), with the `|| 'other'` default. -/
def typeMapLookup (t : List Char) : CommitType :=
  if t = "feat".data then .feature
  else if t = "fix".data then .fix
  else if t = "docs".data then .docs
  else if t = "perf".data then .perf
  else if t = "refactor".data then .refactor
  else if t = "test".data then .test
  else if t = "build".data then .build
  else if t = "chore".data then .other
  else .other

/-- `mapCommitType` from github.ts: lower-case the token, look it up,
default to `other`. -/
def mapCommitType (t : String) : CommitType :=
  typeMapLookup (lowerL t.data)

/-- First line of a message (`message.split('\n')[0]`). -/
def firstLine : List Char → List Char
  | [] => []
  | c :: r => if c = '\n' then [] else c :: firstLine r

/-- Everything after the first `'\n'`
(`descLines.join('\n')` for `[, ...descLines] = message.split('\n')`). -/
def afterFirstLine : List Char → List Char
  | [] => []
  | c :: r => if c = '\n' then r else afterFirstLine r

/-- The result record of `parseConventionalCommit`. -/
structure ParseResult where
  type : CommitType
  scope : Option String
  breaking : Bool
  message : String
  description : Option String
deriving DecidableEq, Repr

/-- The substring-based category inference used when the structured
grammar fails (step 3 of the parser). -/
def inferType (msg : List Char) : CommitType :=
  let lm := lowerL msg
  if hasMarker msg then .breaking
  else if hasSub "fix".data lm || hasSub "bug".data lm then .fix
  else if hasSub "feat".data lm then .feature
  else if hasSub "doc".data lm then .docs
  else if hasSub "perf".data lm then .perf
  else if hasSub "test".data lm then .test
  else if hasSub "build".data lm || hasSub "deps".data lm then .build
  else if hasSub "refactor".data lm then .refactor
  else .other

/-- `parseConventionalCommit` from github.ts. -/
def parseConventionalCommit (message : String) : ParseResult :=
  match matchStructured message.data with
  | some m =>
    { type := mapCommitType (String.mk m.tokenRaw)
      scope := m.scope.map String.mk
      breaking := m.bang || hasMarker message.data
      message := String.mk (jsTrim m.title)
      description := m.body.map (fun d => String.mk (jsTrim d)) }
  | none =>
    let desc := jsTrim (afterFirstLine message.data)
    { type := inferType message.data
      scope := none
      breaking := hasMarker message.data
      message := String.mk (jsTrim (firstLine message.data))
      description := if desc.isEmpty then none else some (String.mk desc) }

/-! ### The per-commit merge step of enrichCommitsWithPRData

`enrichCommitsWithPRData` loops over the commits and, for each commit
with a resolved pull request, mutates the commit in place.  The mutation
applied to one commit for one PR is pure; it is modelled by
`mergeWithPR` below, split into its three consecutive blocks. -/

/-- The `(title, labels, body)` triple of a fetched pull request
(`PullRequest` in github.ts; `body` may be `null`). -/
structure PRData where
  title : String
  labels : List String
  body : Option String
deriving DecidableEq, Repr

/-- JS truthiness of an optional string field: `undefined` and `''` are
falsy. -/
def strFalsy : Option String → Bool
  | none => true
  | some s => s.isEmpty

/-- Membership test used on the lower-cased label list:
`labels.some(l => l.includes(needle))`. -/
def anyLabel (labels : List String) (needle : String) : Bool :=
  labels.any (fun l => hasSub needle.data l.data)

/-- Block 1: `if (commit.type === 'other') { ... }` — refine category and
breaking flag from the PR labels. -/
def mergeLabels (pr : PRData) (c : ParsedCommit) : ParsedCommit :=
  if c.type = .other then
    let labels := pr.labels.map (fun l => String.mk (lowerL l.data))
    { c with
      breaking := anyLabel labels "breaking" || c.breaking
      type :=
        if anyLabel labels "feature" then .feature
        else if anyLabel labels "bug" || anyLabel labels "fix" then .fix
        else if anyLabel labels "doc" then .docs
        else if anyLabel labels "perf" then .perf
        else if anyLabel labels "refactor" then .refactor
        else if anyLabel labels "test" then .test
        else if anyLabel labels "build" then .build
        else c.type }
  else c

/-- Block 2: `if (commit.message.length < pr.title.length)` replace the
title (JS `.length` counts UTF-16 code units). -/
def mergeTitle (pr : PRData) (c : ParsedCommit) : ParsedCommit :=
  if utf16Len c.message.data < utf16Len pr.title.data then
    { c with message := pr.title }
  else c

/-- Block 3: `if (!commit.description && pr.body)` adopt the PR body. -/
def mergeBody (pr : PRData) (c : ParsedCommit) : ParsedCommit :=
  if strFalsy c.description && !(strFalsy pr.body) then
    { c with description := pr.body }
  else c

/-- The whole per-commit merge step of `enrichCommitsWithPRData`:
the three blocks applied in source order. -/
def mergeWithPR (c : ParsedCommit) (pr : PRData) : ParsedCommit :=
  mergeBody pr (mergeTitle pr (mergeLabels pr c))

/-! ### calculateStats -/

/-- The `CommitStats` record from types.ts.  `commitsByType` is a total
function on the closed enumeration — all nine keys are always present —
while the author and scope maps are sparse association lists in JS
object insertion order. -/
structure CommitStats where
  totalCommits : Nat
  commitsByType : CommitType → Nat
  commitsByAuthor : List (String × Nat)
  commitsByScope : List (String × Nat)
  breakingChanges : Nat

/-- `m[k] = (m[k] || 0) + 1` on a JS object modelled as an association
list: bump the existing key or append a new one. -/
def bumpCount (k : String) : List (String × Nat) → List (String × Nat)
  | [] => [(k, 1)]
  | (k1, v) :: rest =>
    if k1 = k then (k1, v + 1) :: rest else (k1, v) :: bumpCount k rest

/-- One iteration of the `for (const commit of commits)` loop of
`calculateStats`. -/
def statsStep (s : CommitStats) (c : ParsedCommit) : CommitStats :=
  { s with
    commitsByType := fun t =>
      if t = c.type then s.commitsByType t + 1 else s.commitsByType t
    commitsByAuthor := bumpCount c.author s.commitsByAuthor
    commitsByScope :=
      match c.scope with
      | some sc => if sc.isEmpty then s.commitsByScope else bumpCount sc s.commitsByScope
      | none => s.commitsByScope
    breakingChanges :=
      if c.breaking then s.breakingChanges + 1 else s.breakingChanges }

/-- `calculateStats` from releaseNotes.ts. -/
def calculateStats (commits : List ParsedCommit) : CommitStats :=
  commits.foldl statsStep
    { totalCommits := commits.length
      commitsByType := fun _ => 0
      commitsByAuthor := []
      commitsByScope := []
      breakingChanges := 0 }

/-! ### Grouping -/

/-- The bucket `groupCommitsByType` pushes a commit into: the virtual
`breaking` bucket when the breaking flag is set, else the commit's own
category. -/
def typeBucket (c : ParsedCommit) : CommitType :=
  if c.breaking then .breaking else c.type

/-- `groupCommitsByType` from releaseNotes.ts, as a total function on
the nine buckets (the JS record literal initializes all nine). -/
def groupCommitsByType (commits : List ParsedCommit) :
    CommitType → List ParsedCommit :=
  commits.foldl
    (fun g c => fun t => if t = typeBucket c then g t ++ [c] else g t)
    (fun _ => [])

/-- Push into a JS-object-of-arrays modelled as an association list:
append to the existing bucket or create it at the end. -/
def pushGroup (k : String) (c : ParsedCommit) :
    List (String × List ParsedCommit) → List (String × List ParsedCommit)
  | [] => [(k, [c])]
  | (k1, l) :: rest =>
    if k1 = k then (k1, l ++ [c]) :: rest else (k1, l) :: pushGroup k c rest

/-- Generic object-of-arrays grouping by a string key, in JS insertion
order (shared shape of `groupCommitsByScope` / `groupCommitsByAuthor`). -/
def groupByKey (key : ParsedCommit → String) (commits : List ParsedCommit) :
    List (String × List ParsedCommit) :=
  commits.foldl (fun g c => pushGroup (key c) c g) []

/-- The key used by `groupCommitsByScope`: `commit.scope || 'other'`
(absent or empty scope falls back to the literal `"other"`). -/
def scopeKey (c : ParsedCommit) : String :=
  match c.scope with
  | some sc => if sc.isEmpty then "other" else sc
  | none => "other"

/-- `groupCommitsByScope` from releaseNotes.ts. -/
def groupCommitsByScope (commits : List ParsedCommit) :
    List (String × List ParsedCommit) :=
  groupByKey scopeKey commits

/-- `groupCommitsByAuthor` from releaseNotes.ts. -/
def groupCommitsByAuthor (commits : List ParsedCommit) :
    List (String × List ParsedCommit) :=
  groupByKey (fun c => c.author) commits

/-! ### The document and the renderer -/

/-- The `ReleaseNotes` record from types.ts. -/
structure ReleaseNotes where
  version : Option String
  date : String
  breakingChanges : List ParsedCommit
  commits : List ParsedCommit
  stats : Option CommitStats

/-- The three grouping modes of the renderer. -/
inductive GroupBy where
  | type
  | scope
  | author
deriving DecidableEq, Repr

/-- `EMOJI_MAP` from releaseNotes.ts. -/
def EMOJI_MAP : CommitType → String
  | .breaking => "⚠️"
  | .feature => "🚀"
  | .fix => "🐛"
  | .docs => "📚"
  | .perf => "⚡"
  | .refactor => "♻️"
  | .test => "🧪"
  | .build => "🏗️"
  | .other => "🔧"

/-- The string key of a category bucket, as `Object.entries` reports it. -/
def typeName : CommitType → String
  | .breaking => "breaking"
  | .feature => "feature"
  | .fix => "fix"
  | .docs => "docs"
  | .perf => "perf"
  | .refactor => "refactor"
  | .test => "test"
  | .build => "build"
  | .other => "other"

/-- `EMOJI_MAP[group as CommitType]` indexed by the group's string key
(the render loop only ever applies it to the nine category names). -/
def emojiOfName (g : String) : String :=
  if g = "breaking" then EMOJI_MAP .breaking
  else if g = "feature" then EMOJI_MAP .feature
  else if g = "fix" then EMOJI_MAP .fix
  else if g = "docs" then EMOJI_MAP .docs
  else if g = "perf" then EMOJI_MAP .perf
  else if g = "refactor" then EMOJI_MAP .refactor
  else if g = "test" then EMOJI_MAP .test
  else if g = "build" then EMOJI_MAP .build
  else if g = "other" then EMOJI_MAP .other
  else ""

/-- The nine categories in the fixed enumeration (JS object literal)
order used by `groupCommitsByType` and the statistics section. -/
def typeOrder : List CommitType :=
  [.breaking, .feature, .fix, .docs, .perf, .refactor, .test, .build, .other]

/-- `Object.entries(groupedCommits)` for the grouping chosen by the
`switch (groupBy)` in `generateMarkdown`. -/
def groupedEntries (rn : ReleaseNotes) (gb : GroupBy) :
    List (String × List ParsedCommit) :=
  match gb with
  | .type => typeOrder.map (fun t => (typeName t, groupCommitsByType rn.commits t))
  | .scope => groupCommitsByScope rn.commits
  | .author => groupCommitsByAuthor rn.commits

/-- The grouped sections the renderer actually emits: the entry loop of
`generateMarkdown` skips empty buckets (`commits.length === 0`) and the
bucket literally named `breaking` (`group === 'breaking'`). -/
def emittedSections (rn : ReleaseNotes) (gb : GroupBy) :
    List (String × List ParsedCommit) :=
  (groupedEntries rn gb).filter
    (fun e => !e.2.isEmpty && !(e.1 = "breaking"))

/-- `formatCommit` from releaseNotes.ts. -/
def formatCommit (c : ParsedCommit) (includeScope : Bool := true) : String :=
  let emoji := EMOJI_MAP c.type
  let scopePart :=
    match c.scope with
    | some sc => if !sc.isEmpty && includeScope then "(" ++ sc ++ ") " else ""
    | none => ""
  let prLink :=
    match c.prNumber with
    | some n => if n ≠ 0 then " (#" ++ toString n ++ ")" else ""
    | none => ""
  let breakingPart := if c.breaking then " [BREAKING]" else ""
  emoji ++ " " ++ scopePart ++ c.message ++ breakingPart ++ prLink

/-- `description.replace(/\n/g, '\n  - ')`. -/
def indentBody (d : List Char) : List Char :=
  match d with
  | [] => []
  | c :: rest =>
    if c = '\n' then '\n' :: ("  - ".data ++ indentBody rest)
    else c :: indentBody rest

/-- The `- <commit>` line plus the optional indented body line emitted
for one commit. -/
def commitLines (includeScope : Bool) (c : ParsedCommit) : List String :=
  ("- " ++ formatCommit c includeScope) ::
    (match c.description with
     | some d =>
       if d.isEmpty then [] else ["  - " ++ String.mk (indentBody d.data)]
     | none => [])

/-- `format(new Date(date), 'yyyy-MM-dd')`, modelled (for the ISO-8601
timestamps the document carries) as the date portion of the timestamp:
its first ten characters. -/
def formatYMD (date : String) : String :=
  String.mk (date.data.take 10)

/-- `group.charAt(0).toUpperCase() + group.slice(1)`. -/
def capitalizeFirst (s : String) : String :=
  match s.data with
  | [] => ""
  | c :: r => String.mk (c.toUpper :: r)

/-- The section header emitted for one group under each mode. -/
def sectionTitle (gb : GroupBy) (g : String) : String :=
  match gb with
  | .type => "## " ++ emojiOfName g ++ " " ++ capitalizeFirst g
  | .scope => "## 📦 " ++ g
  | .author => "## 👤 " ++ g

/-- Descending stable sort by count (`.sort(([, a], [, b]) => b - a)`;
JS `Array.prototype.sort` is stable). -/
def sortByCountDesc (l : List (String × Nat)) : List (String × Nat) :=
  l.mergeSort (fun a b => decide (b.2 ≤ a.2))

/-- The statistics section of `generateMarkdown`. -/
def statsLines (stats : CommitStats) : List String :=
  ["## 📊 Detailed Statistics\n", "### Commits by Type"] ++
  ((typeOrder.map (fun t => (typeName t, stats.commitsByType t))).filter
      (fun e => 0 < e.2)).map
    (fun e => "- " ++ emojiOfName e.1 ++ " " ++ e.1 ++ ": " ++ toString e.2) ++
  (if stats.commitsByScope.isEmpty then []
   else "\n### Commits by Scope" ::
     (sortByCountDesc stats.commitsByScope).map
       (fun e => "- 📦 " ++ e.1 ++ ": " ++ toString e.2)) ++
  ("\n### Commits by Author" ::
    (sortByCountDesc stats.commitsByAuthor).map
      (fun e => "- 👤 " ++ e.1 ++ ": " ++ toString e.2))

/-- The `lines` array built by `generateMarkdown`, before `join('\n')`. -/
def markdownLines (rn : ReleaseNotes) (gb : GroupBy) : List String :=
  let header :=
    ("# Release Notes" ++
      (match rn.version with
       | some v => if v.isEmpty then "" else " (" ++ v ++ ")"
       | none => "")) ::
    ("> Generated on " ++ formatYMD rn.date) ::
    (match rn.stats with
     | some st =>
       ["> Total Commits: " ++ toString st.totalCommits ++
        " | Breaking Changes: " ++ toString st.breakingChanges ++ "\n"]
     | none => [""])
  let breakingSection :=
    if rn.breakingChanges.isEmpty then []
    else "## ⚠️ Breaking Changes\n" ::
      (rn.breakingChanges.flatMap (commitLines true) ++ [""])
  let groupSections :=
    (emittedSections rn gb).flatMap
      (fun e =>
        (sectionTitle gb e.1 ++ "\n") ::
          (e.2.flatMap (commitLines (!(gb = GroupBy.scope))) ++ [""]))
  let statsSection :=
    match rn.stats with
    | some st => statsLines st
    | none => []
  header ++ breakingSection ++ groupSections ++ statsSection

/-- `generateMarkdown` from releaseNotes.ts. -/
def generateMarkdown (rn : ReleaseNotes) (gb : GroupBy) : String :=
  String.intercalate "\n" (markdownLines rn gb)

/-! ### generatePlainText

`markdown.replace(/^#+\s*/gm, '').replace(/^[-*]\s*/gm, '').trim()`.
Each global multiline replace is modelled by a scanner: at a position
that starts a line of the original string, a maximal run of lead
characters (one-or-more `#`, or exactly one `-`/`*`) followed by a
maximal `\s` run is deleted; scanning resumes after the deleted match,
which starts a new line exactly when the last deleted character was a
newline. -/

inductive StripState where
  | norm (atStart : Bool)
  | lead
  | ws (prev : Char)

def stripGo (isLead : Char → Bool) (many : Bool) :
    StripState → List Char → List Char
  | _, [] => []
  | .norm atStart, c :: rest =>
    if atStart && isLead c then
      if many then stripGo isLead many .lead rest
      else stripGo isLead many (.ws c) rest
    else c :: stripGo isLead many (.norm (c = '\n')) rest
  | .lead, c :: rest =>
    if isLead c then stripGo isLead many .lead rest
    else if jsWs c then stripGo isLead many (.ws c) rest
    else c :: stripGo isLead many (.norm (c = '\n')) rest
  | .ws prev, c :: rest =>
    if jsWs c then stripGo isLead many (.ws c) rest
    else if prev = '\n' && isLead c then
      if many then stripGo isLead many .lead rest
      else stripGo isLead many (.ws c) rest
    else c :: stripGo isLead many (.norm (c = '\n')) rest

/-- `generatePlainText` from releaseNotes.ts. -/
def generatePlainText (rn : ReleaseNotes) (gb : GroupBy) : String :=
  let md := (generateMarkdown rn gb).data
  let pass1 := stripGo (fun c => c = '#') true (.norm true) md
  let pass2 := stripGo (fun c => c = '-' || c = '*') false (.norm true) pass1
  String.mk (jsTrim pass2)

/-! ### generateReleaseNotes -/

/-- The rendering options of `generateReleaseNotes` after defaulting.
The requested output encoding is a free string so that unrecognized
encodings can be expressed. -/
structure GenOptions where
  version : Option String
  groupBy : GroupBy
  format : String
  includeStats : Bool
deriving DecidableEq, Repr

/-- The `ReleaseNotes` value built by `generateReleaseNotes`: the
breaking / non-breaking split and the optional statistics.  `now` stands
for `new Date().toISOString()`. -/
def buildReleaseNotes (commits : List ParsedCommit) (version : Option String)
    (now : String) (includeStats : Bool) : ReleaseNotes :=
  { version := version
    date := now
    breakingChanges := commits.filter (fun c => c.breaking)
    commits := commits.filter (fun c => !c.breaking)
    stats := if includeStats then some (calculateStats commits) else none }

/-- JSON string escaping (`\"`, `\\`, control characters). -/
def escapeJsonChar (c : Char) : List Char :=
  if c = '"' then ['\\', '"']
  else if c = '\\' then ['\\', '\\']
  else if c = '\n' then ['\\', 'n']
  else if c = '\r' then ['\\', 'r']
  else if c = '\t' then ['\\', 't']
  else [c]

def jsonStr (s : String) : String :=
  "\"" ++ String.mk (s.data.flatMap escapeJsonChar) ++ "\""

/-- `JSON.stringify` of one commit (fields in declaration order,
`undefined` fields dropped, as JSON.stringify does; the pretty-printing
whitespace of `JSON.stringify(..., null, 2)` is not modelled). -/
def jsonCommit (c : ParsedCommit) : String :=
  "\x7b" ++
  String.intercalate ","
    (["\"sha\":" ++ jsonStr c.sha, "\"type\":" ++ jsonStr (typeName c.type)] ++
     (match c.scope with
      | some sc => ["\"scope\":" ++ jsonStr sc]
      | none => []) ++
     ["\"message\":" ++ jsonStr c.message] ++
     (match c.description with
      | some d => ["\"description\":" ++ jsonStr d]
      | none => []) ++
     ["\"breaking\":" ++ (if c.breaking then "true" else "false"),
      "\"author\":" ++ jsonStr c.author,
      "\"date\":" ++ jsonStr c.date] ++
     (match c.prNumber with
      | some n => ["\"prNumber\":" ++ toString n]
      | none => []) ++
     ["\"commitUrl\":" ++ jsonStr c.commitUrl]) ++
  "\x7d"

def jsonCommitList (l : List ParsedCommit) : String :=
  "[" ++ String.intercalate "," (l.map jsonCommit) ++ "]"

def jsonCountMap (l : List (String × Nat)) : String :=
  "\x7b" ++
  String.intercalate "," (l.map (fun e => jsonStr e.1 ++ ":" ++ toString e.2)) ++
  "\x7d"

def jsonStats (st : CommitStats) : String :=
  "\x7b\"totalCommits\":" ++ toString st.totalCommits ++
  ",\"commitsByType\":" ++
    jsonCountMap (typeOrder.map (fun t => (typeName t, st.commitsByType t))) ++
  ",\"commitsByAuthor\":" ++ jsonCountMap st.commitsByAuthor ++
  ",\"commitsByScope\":" ++ jsonCountMap st.commitsByScope ++
  ",\"breakingChanges\":" ++ toString st.breakingChanges ++ "\x7d"

/-- `JSON.stringify(releaseNotes, null, 2)` modulo pretty-printing. -/
def jsonReleaseNotes (rn : ReleaseNotes) : String :=
  "\x7b" ++
  String.intercalate ","
    ((match rn.version with
      | some v => ["\"version\":" ++ jsonStr v]
      | none => []) ++
     ["\"date\":" ++ jsonStr rn.date,
      "\"breakingChanges\":" ++ jsonCommitList rn.breakingChanges,
      "\"commits\":" ++ jsonCommitList rn.commits] ++
     (match rn.stats with
      | some st => ["\"stats\":" ++ jsonStats st]
      | none => [])) ++
  "\x7d"

/-- `generateReleaseNotes` from releaseNotes.ts.  The `throw` of the
`default` branch is modelled by `Except.error`; `now` stands for
`new Date().toISOString()`. -/
def generateReleaseNotes (commits : List ParsedCommit) (opts : GenOptions)
    (now : String) : Except String String :=
  let rn := buildReleaseNotes commits opts.version now opts.includeStats
  if opts.format = "markdown" then .ok (generateMarkdown rn opts.groupBy)
  else if opts.format = "json" then .ok (jsonReleaseNotes rn)
  else if opts.format = "text" then .ok (generatePlainText rn opts.groupBy)
  else .error ("Unsupported format: " ++ opts.format)

/-! ## Theorems -/

/-- Sum of the per-category counters over all nine category keys. -/
def sumType (f : CommitType → Nat) : Nat :=
  f .breaking + f .feature + f .fix + f .docs + f .perf + f .refactor +
    f .test + f .build + f .other

/-- Sum of the counts of a sparse counter map. -/
def sumVals (l : List (String × Nat)) : Nat :=
  (l.map Prod.snd).sum

lemma sumType_statsStep (s : CommitStats) (c : ParsedCommit) :
    sumType (statsStep s c).commitsByType = sumType s.commitsByType + 1 := by
  cases hc : c.type <;> (simp [sumType, statsStep, hc]; omega)

lemma sumVals_bumpCount (k : String) (l : List (String × Nat)) :
    sumVals (bumpCount k l) = sumVals l + 1 := by
  induction l with
  | nil => simp [bumpCount, sumVals]
  | cons h t ih =>
    obtain ⟨k1, v⟩ := h
    by_cases hk : k1 = k <;> (simp [bumpCount, hk, sumVals] at *; omega)

lemma statsFold_total (l : List ParsedCommit) (s : CommitStats) :
    (l.foldl statsStep s).totalCommits = s.totalCommits := by
  induction l generalizing s with
  | nil => rfl
  | cons c t ih => rw [List.foldl_cons, ih]; rfl

lemma statsFold_type (l : List ParsedCommit) (s : CommitStats) :
    sumType (l.foldl statsStep s).commitsByType =
      sumType s.commitsByType + l.length := by
  induction l generalizing s with
  | nil => simp
  | cons c t ih =>
    rw [List.foldl_cons, ih, sumType_statsStep]
    simp; omega

lemma statsFold_author (l : List ParsedCommit) (s : CommitStats) :
    sumVals (l.foldl statsStep s).commitsByAuthor =
      sumVals s.commitsByAuthor + l.length := by
  induction l generalizing s with
  | nil => simp
  | cons c t ih =>
    rw [List.foldl_cons, ih]
    show sumVals (bumpCount c.author s.commitsByAuthor) + t.length = _
    rw [sumVals_bumpCount]
    simp; omega

lemma statsFold_breaking (l : List ParsedCommit) (s : CommitStats) :
    (l.foldl statsStep s).breakingChanges =
      s.breakingChanges + l.countP (fun c => c.breaking) := by
  induction l generalizing s with
  | nil => simp
  | cons c t ih =>
    rw [List.foldl_cons, ih, List.countP_cons]
    show (if c.breaking then s.breakingChanges + 1 else s.breakingChanges) + _ = _
    by_cases hb : c.breaking
    · simp [hb]
      omega
    · simp [hb]

/-- C1: for every input commit collection, the computed statistics carry
all nine category keys (`commitsByType` is total on the enumeration and
`sumType` sums exactly those nine counters), the per-category counts sum
to the total commit count, the per-author counts also sum to it, and the
breaking-change count equals the number of commits whose breaking flag
is true. -/
theorem calculateStats_invariants (commits : List ParsedCommit) :
    sumType (calculateStats commits).commitsByType =
        (calculateStats commits).totalCommits
    ∧ (calculateStats commits).totalCommits = commits.length
    ∧ sumVals (calculateStats commits).commitsByAuthor =
        (calculateStats commits).totalCommits
    ∧ (calculateStats commits).breakingChanges =
        commits.countP (fun c => c.breaking) := by
  unfold calculateStats
  refine ⟨?_, ?_, ?_, ?_⟩
  · rw [statsFold_type, statsFold_total]
    simp [sumType]
  · rw [statsFold_total]
  · rw [statsFold_author, statsFold_total]
    simp [sumVals]
  · rw [statsFold_breaking]; simp

/-! ### Parser lemmas -/

lemma mem_takeWhile_dot {p : Char → Bool} :
    ∀ {l : List Char} {c : Char}, c ∈ l.takeWhile p → p c = true := by
  intro l
  induction l with
  | nil => intro c h; simp [List.takeWhile] at h
  | cons a t ih =>
    intro c h
    rw [List.takeWhile_cons] at h
    by_cases ha : p a
    · simp [ha] at h
      rcases h with h | h
      · rw [h]; exact ha
      · exact ih h
    · simp [ha] at h

lemma mem_jsTrim {c : Char} {l : List Char} (h : c ∈ jsTrim l) : c ∈ l := by
  unfold jsTrim at h
  have h1 := List.mem_reverse.mp h
  have h2 := (List.dropWhile_sublist (p := jsWs)).subset h1
  have h3 := List.mem_reverse.mp h2
  exact (List.dropWhile_sublist (p := jsWs)).subset h3

lemma tailAt_title_dot {s t : List Char} {d : Option (List Char)}
    (h : tailAt s = some (t, d)) : ∀ c ∈ t, dotChar c = true := by
  unfold tailAt at h
  dsimp only at h
  split at h
  · exact absurd h (by simp)
  · split at h
    · rw [Option.some.injEq, Prod.mk.injEq] at h
      intro c hc
      rw [← h.1] at hc
      exact mem_takeWhile_dot hc
    · rw [Option.some.injEq, Prod.mk.injEq] at h
      intro c hc
      rw [← h.1] at hc
      exact mem_takeWhile_dot hc
    · exact absurd h (by simp)

lemma tailFrom_title_dot {s : List Char} :
    ∀ {k : Nat} {t : List Char} {d : Option (List Char)},
      tailFrom s k = some (t, d) → ∀ c ∈ t, dotChar c = true := by
  intro k
  induction k with
  | zero => intro t d h; exact tailAt_title_dot h
  | succ n ih =>
    intro t d h
    unfold tailFrom at h
    split at h
    · rename_i r ha
      injection h with h
      subst h
      exact tailAt_title_dot ha
    · exact ih h

lemma matchColonTail_title_dot {sc : Option (List Char)} {bang : Bool}
    {r : List Char} {q : Option (List Char) × Bool × List Char × Option (List Char)}
    (h : matchColonTail sc bang r = some q) : ∀ c ∈ q.2.2.1, dotChar c = true := by
  unfold matchColonTail at h
  split at h
  · rename_i rest
    rcases hmt : matchTail rest with _ | td
    · rw [hmt] at h
      exact absurd h (by simp)
    · rw [hmt] at h
      obtain ⟨t1, d1⟩ := td
      injection h with h
      subst h
      exact tailFrom_title_dot hmt
  · exact absurd h (by simp)

lemma matchBangColon_title_dot {sc : Option (List Char)} {r : List Char}
    {q : Option (List Char) × Bool × List Char × Option (List Char)}
    (h : matchBangColon sc r = some q) : ∀ c ∈ q.2.2.1, dotChar c = true := by
  unfold matchBangColon at h
  split at h
  · exact matchColonTail_title_dot h
  · exact matchColonTail_title_dot h

lemma matchAfterToken_title_dot {r : List Char}
    {q : Option (List Char) × Bool × List Char × Option (List Char)}
    (h : matchAfterToken r = some q) : ∀ c ∈ q.2.2.1, dotChar c = true := by
  unfold matchAfterToken at h
  dsimp only at h
  split at h
  · split at h
    · split at h
      · exact absurd h (by simp)
      · exact matchBangColon_title_dot h
    · exact absurd h (by simp)
  · exact matchBangColon_title_dot h

lemma stripToken_lower :
    ∀ (tok s r : List Char), stripToken tok s = some r →
      lowerL (s.take tok.length) = tok := by
  intro tok
  induction tok with
  | nil => intro s r _; simp [lowerL]
  | cons t ts ih =>
    intro s r h
    rcases s with _ | ⟨c, cs⟩
    · simp [stripToken] at h
    · unfold stripToken at h
      by_cases hc : lowerChar c = t
      · simp only [hc, if_true] at h
        simp only [List.length_cons, List.take_succ_cons, lowerL, List.map_cons]
        rw [hc]
        have := ih cs r h
        simp only [lowerL] at this
        rw [this]
      · simp [hc] at h

lemma tryTokens_inv :
    ∀ (ts : List (List Char)) (s : List Char) (m : StructMatch),
      tryTokens ts s = some m →
        m.tokLower ∈ ts ∧ lowerL m.tokenRaw = m.tokLower
        ∧ (∃ rest, stripToken m.tokLower s = some rest
            ∧ matchAfterToken rest = some (m.scope, m.bang, m.title, m.body)) := by
  intro ts
  induction ts with
  | nil => intro s m h; simp [tryTokens] at h
  | cons tok more ih =>
    intro s m h
    unfold tryTokens at h
    split at h
    · rename_i rest hst
      split at h
      · rename_i sc bang t d hma
        injection h with h
        subst h
        exact ⟨List.mem_cons_self _ _, stripToken_lower tok s rest hst, rest, hst, hma⟩
      · have := ih s m h
        exact ⟨List.mem_cons_of_mem _ this.1, this.2⟩
    · have := ih s m h
      exact ⟨List.mem_cons_of_mem _ this.1, this.2⟩

lemma matchStructured_inv {msg : List Char} {m : StructMatch}
    (h : matchStructured msg = some m) :
    m.tokLower ∈ recognizedTokens ∧ lowerL m.tokenRaw = m.tokLower
    ∧ ∀ c ∈ m.title, dotChar c = true := by
  have h1 := tryTokens_inv recognizedTokens msg m h
  obtain ⟨hmem, hlow, rest, _, hma⟩ := h1
  exact ⟨hmem, hlow, matchAfterToken_title_dot hma⟩

lemma firstLine_no_newline : ∀ (l : List Char), '\n' ∉ firstLine l := by
  intro l
  induction l with
  | nil => simp [firstLine]
  | cons c r ih =>
    unfold firstLine
    by_cases hc : c = '\n'
    · simp [hc]
    · simp only [hc, if_false, Bool.false_eq_true]
      intro hmem
      rcases List.mem_cons.mp hmem with h | h
      · exact hc h.symm
      · exact ih h

/-! ### C3 -/

/-- C3: for every raw commit message, a literal `BREAKING CHANGE:`
substring forces the parsed breaking flag to true whether or not the
structured grammar matched; and on a successful structured match the
breaking flag is exactly the disjunction of the `!`-before-colon marker
and the literal-marker test on the full message. -/
theorem parse_breaking_marker (msg : String) :
    (hasMarker msg.data = true → (parseConventionalCommit msg).breaking = true)
    ∧ (∀ m : StructMatch, matchStructured msg.data = some m →
        (parseConventionalCommit msg).breaking = (m.bang || hasMarker msg.data)) := by
  constructor
  · intro h
    unfold parseConventionalCommit
    rcases hm : matchStructured msg.data with _ | m
    · simp [h]
    · simp [h]
  · intro m hm
    unfold parseConventionalCommit
    rw [hm]

/-- Witness for C3: a message that both matches the structured grammar
and contains the literal marker. -/
theorem parse_breaking_marker_witness :
    hasMarker ("fix: BREAKING CHANGE: x").data = true
    ∧ (parseConventionalCommit "fix: BREAKING CHANGE: x").breaking = true
    ∧ (parseConventionalCommit "fix: BREAKING CHANGE: x").breaking =
        ((false : Bool) || hasMarker ("fix: BREAKING CHANGE: x").data) :=
  ⟨by decide,
   (parse_breaking_marker "fix: BREAKING CHANGE: x").1 (by decide),
   (parse_breaking_marker "fix: BREAKING CHANGE: x").2
     ⟨"fix".data, "fix".data, none, false, "BREAKING CHANGE: x".data, none⟩
     (by decide)⟩

/-! ### C4 -/

/-- C4: for every message matching the structured grammar, the matched
token (lower-cased) is one of the eight recognized tokens, the parsed
category is `mapCommitType` of the raw captured token, and that equals
the fixed lookup applied to the lower-cased token — so the category
depends only on the token up to letter casing.  The final conjunct spells
out the fixed token-to-category table. -/
theorem parse_category_mapping (msg : String) (m : StructMatch)
    (h : matchStructured msg.data = some m) :
    m.tokLower ∈ recognizedTokens
    ∧ lowerL m.tokenRaw = m.tokLower
    ∧ (parseConventionalCommit msg).type = mapCommitType (String.mk m.tokenRaw)
    ∧ mapCommitType (String.mk m.tokenRaw) = typeMapLookup m.tokLower
    ∧ typeMapLookup "feat".data = CommitType.feature
    ∧ typeMapLookup "chore".data = CommitType.other
    ∧ typeMapLookup "fix".data = CommitType.fix
    ∧ typeMapLookup "docs".data = CommitType.docs
    ∧ typeMapLookup "perf".data = CommitType.perf
    ∧ typeMapLookup "refactor".data = CommitType.refactor
    ∧ typeMapLookup "test".data = CommitType.test
    ∧ typeMapLookup "build".data = CommitType.build := by
  obtain ⟨hmem, hlow, -⟩ := matchStructured_inv h
  refine ⟨hmem, hlow, ?_, ?_, by decide, by decide, by decide, by decide,
    by decide, by decide, by decide, by decide⟩
  · unfold parseConventionalCommit
    rw [h]
  · show typeMapLookup (lowerL (String.mk m.tokenRaw).data) = typeMapLookup m.tokLower
    rw [show (String.mk m.tokenRaw).data = m.tokenRaw from rfl, hlow]

/-- Witness for C4: an upper-case `FEAT` token still maps to the
`feature` category. -/
theorem parse_category_mapping_witness :
    (parseConventionalCommit "FEAT: Loud").type = CommitType.feature
    ∧ matchStructured ("FEAT: Loud").data =
        some ⟨"feat".data, "FEAT".data, none, false, "Loud".data, none⟩ := by
  refine ⟨?_, by decide⟩
  have h := parse_category_mapping "FEAT: Loud"
    ⟨"feat".data, "FEAT".data, none, false, "Loud".data, none⟩ (by decide)
  rw [h.2.2.1]
  decide

/-! ### C5 -/

/-- C5: when the structured grammar fails to match, the category is
chosen by case-insensitive substring search over the whole message in
the fixed priority order: breaking-marker, then `fix`/`bug`, then
`feat`, then `doc`, then `perf`, then `test`, then `build`/`deps`, then
`refactor`, else `other` — first match wins, regardless of position in
the string. -/
theorem parse_substring_inference (msg : String)
    (h : matchStructured msg.data = none) :
    (parseConventionalCommit msg).type =
      (if hasMarker msg.data then CommitType.breaking
       else if hasSub "fix".data (lowerL msg.data)
              || hasSub "bug".data (lowerL msg.data) then CommitType.fix
       else if hasSub "feat".data (lowerL msg.data) then CommitType.feature
       else if hasSub "doc".data (lowerL msg.data) then CommitType.docs
       else if hasSub "perf".data (lowerL msg.data) then CommitType.perf
       else if hasSub "test".data (lowerL msg.data) then CommitType.test
       else if hasSub "build".data (lowerL msg.data)
              || hasSub "deps".data (lowerL msg.data) then CommitType.build
       else if hasSub "refactor".data (lowerL msg.data) then CommitType.refactor
       else CommitType.other) := by
  unfold parseConventionalCommit
  rw [h]
  rfl

/-- Witness for C5: `"feature fixup"` contains `feat` at an earlier
position than `fix`, yet is classified `fix` because the priority order,
not string position, decides. -/
theorem parse_substring_inference_witness :
    matchStructured ("feature fixup").data = none
    ∧ (parseConventionalCommit "feature fixup").type = CommitType.fix := by
  refine ⟨by decide, ?_⟩
  rw [parse_substring_inference "feature fixup" (by decide)]
  decide

/-! ### C8 -/

/-- Counterexample to C8 as stated: the empty message parses to an empty
title, so the resulting title is not always non-empty. -/
theorem parse_empty_title_cex :
    (parseConventionalCommit "").message = "" := by decide

/-- C8 (amended): the parser is total — every input string yields a
record whose category belongs to the closed nine-value enumeration and
whose title is a single line (it never contains a newline) — but the
title may be empty (for example on the empty message). -/
theorem parse_total_closed_enum (msg : String) :
    (parseConventionalCommit msg).type ∈
      [CommitType.breaking, CommitType.feature, CommitType.fix,
       CommitType.docs, CommitType.perf, CommitType.refactor,
       CommitType.test, CommitType.build, CommitType.other]
    ∧ '\n' ∉ (parseConventionalCommit msg).message.data := by
  constructor
  · cases h : (parseConventionalCommit msg).type <;> simp
  · unfold parseConventionalCommit
    rcases h : matchStructured msg.data with _ | m
    · dsimp only
      intro hmem
      have h1 := mem_jsTrim hmem
      exact firstLine_no_newline msg.data h1
    · dsimp only
      intro hmem
      have h1 := mem_jsTrim hmem
      have h2 := (matchStructured_inv h).2.2 '\n' h1
      exact absurd h2 (by decide)

/-! ### Merger lemmas -/

lemma mergeLabels_of_not (pr : PRData) (c : ParsedCommit)
    (h : ¬c.type = CommitType.other) : mergeLabels pr c = c := by
  unfold mergeLabels
  simp [h]

lemma mergeTitle_of_not (pr : PRData) (x : ParsedCommit)
    (h : ¬utf16Len x.message.data < utf16Len pr.title.data) :
    mergeTitle pr x = x := by
  unfold mergeTitle
  simp [h]

lemma mergeTitle_type (pr : PRData) (x : ParsedCommit) :
    (mergeTitle pr x).type = x.type := by
  unfold mergeTitle; split <;> rfl

lemma mergeTitle_breaking (pr : PRData) (x : ParsedCommit) :
    (mergeTitle pr x).breaking = x.breaking := by
  unfold mergeTitle; split <;> rfl

lemma mergeTitle_description (pr : PRData) (x : ParsedCommit) :
    (mergeTitle pr x).description = x.description := by
  unfold mergeTitle; split <;> rfl

lemma mergeBody_type (pr : PRData) (x : ParsedCommit) :
    (mergeBody pr x).type = x.type := by
  unfold mergeBody; split <;> rfl

lemma mergeBody_breaking (pr : PRData) (x : ParsedCommit) :
    (mergeBody pr x).breaking = x.breaking := by
  unfold mergeBody; split <;> rfl

lemma mergeBody_message (pr : PRData) (x : ParsedCommit) :
    (mergeBody pr x).message = x.message := by
  unfold mergeBody; split <;> rfl

lemma mergeLabels_breaking_other (pr : PRData) (c : ParsedCommit)
    (hc : c.type = CommitType.other) :
    (mergeLabels pr c).breaking =
      (anyLabel (pr.labels.map (fun l => String.mk (lowerL l.data))) "breaking"
        || c.breaking) := by
  unfold mergeLabels
  rw [if_pos hc]

lemma mergeBody_idem (pr : PRData) (x : ParsedCommit) :
    mergeBody pr (mergeBody pr x) = mergeBody pr x := by
  by_cases h : (strFalsy x.description && !(strFalsy pr.body)) = true
  · obtain ⟨h1, h2⟩ : strFalsy x.description = true ∧ strFalsy pr.body = false := by
      simpa using h
    unfold mergeBody
    simp [h1, h2]
  · unfold mergeBody
    simp [h]

lemma mergeTitle_stable (pr : PRData) (z : ParsedCommit) :
    mergeTitle pr (mergeBody pr (mergeTitle pr z)) =
      mergeBody pr (mergeTitle pr z) := by
  apply mergeTitle_of_not
  rw [mergeBody_message]
  unfold mergeTitle
  split
  · simp
  · assumption

lemma mergeLabels_noop (pr : PRData) (z : ParsedCommit)
    (hz : z.type = CommitType.other)
    (h1 : anyLabel (pr.labels.map (fun l => String.mk (lowerL l.data))) "feature"
      = false)
    (h2 : (anyLabel (pr.labels.map (fun l => String.mk (lowerL l.data))) "bug"
      || anyLabel (pr.labels.map (fun l => String.mk (lowerL l.data))) "fix")
      = false)
    (h3 : anyLabel (pr.labels.map (fun l => String.mk (lowerL l.data))) "doc"
      = false)
    (h4 : anyLabel (pr.labels.map (fun l => String.mk (lowerL l.data))) "perf"
      = false)
    (h5 : anyLabel (pr.labels.map (fun l => String.mk (lowerL l.data))) "refactor"
      = false)
    (h6 : anyLabel (pr.labels.map (fun l => String.mk (lowerL l.data))) "test"
      = false)
    (h7 : anyLabel (pr.labels.map (fun l => String.mk (lowerL l.data))) "build"
      = false)
    (hbr : (anyLabel (pr.labels.map (fun l => String.mk (lowerL l.data))) "breaking"
      || z.breaking) = z.breaking) :
    mergeLabels pr z = z := by
  unfold mergeLabels
  rw [if_pos hz]
  show ({ z with
      breaking := anyLabel (pr.labels.map (fun l => String.mk (lowerL l.data)))
        "breaking" || z.breaking
      type :=
        if anyLabel (pr.labels.map (fun l => String.mk (lowerL l.data))) "feature"
          then CommitType.feature
        else if anyLabel (pr.labels.map (fun l => String.mk (lowerL l.data))) "bug"
          || anyLabel (pr.labels.map (fun l => String.mk (lowerL l.data))) "fix"
          then CommitType.fix
        else if anyLabel (pr.labels.map (fun l => String.mk (lowerL l.data))) "doc"
          then CommitType.docs
        else if anyLabel (pr.labels.map (fun l => String.mk (lowerL l.data))) "perf"
          then CommitType.perf
        else if anyLabel (pr.labels.map (fun l => String.mk (lowerL l.data)))
          "refactor" then CommitType.refactor
        else if anyLabel (pr.labels.map (fun l => String.mk (lowerL l.data))) "test"
          then CommitType.test
        else if anyLabel (pr.labels.map (fun l => String.mk (lowerL l.data))) "build"
          then CommitType.build
        else z.type } : ParsedCommit) = z
  rw [hbr]
  simp only [h1, h2, h3, h4, h5, h6, h7, Bool.false_eq_true, if_false]

lemma mergeLabels_stable (pr : PRData) (c : ParsedCommit) :
    mergeLabels pr (mergeBody pr (mergeTitle pr (mergeLabels pr c)))
      = mergeBody pr (mergeTitle pr (mergeLabels pr c)) := by
  by_cases hty :
      (mergeBody pr (mergeTitle pr (mergeLabels pr c))).type = CommitType.other
  · have hty0 : (mergeLabels pr c).type = CommitType.other := by
      rw [mergeBody_type, mergeTitle_type] at hty
      exact hty
    have hc : c.type = CommitType.other := by
      by_contra hcc
      rw [mergeLabels_of_not pr c hcc] at hty0
      exact hcc hty0
    have hchain : (if anyLabel (pr.labels.map (fun l => String.mk (lowerL l.data)))
          "feature" then CommitType.feature
        else if anyLabel (pr.labels.map (fun l => String.mk (lowerL l.data))) "bug"
          || anyLabel (pr.labels.map (fun l => String.mk (lowerL l.data))) "fix"
          then CommitType.fix
        else if anyLabel (pr.labels.map (fun l => String.mk (lowerL l.data))) "doc"
          then CommitType.docs
        else if anyLabel (pr.labels.map (fun l => String.mk (lowerL l.data))) "perf"
          then CommitType.perf
        else if anyLabel (pr.labels.map (fun l => String.mk (lowerL l.data)))
          "refactor" then CommitType.refactor
        else if anyLabel (pr.labels.map (fun l => String.mk (lowerL l.data))) "test"
          then CommitType.test
        else if anyLabel (pr.labels.map (fun l => String.mk (lowerL l.data))) "build"
          then CommitType.build
        else c.type) = CommitType.other := by
      have h0 := hty0
      unfold mergeLabels at h0
      rw [if_pos hc] at h0
      exact h0
    have h1 : anyLabel (pr.labels.map (fun l => String.mk (lowerL l.data)))
        "feature" = false := by
      cases hx : anyLabel (pr.labels.map (fun l => String.mk (lowerL l.data)))
        "feature"
      · rfl
      · rw [hx] at hchain; simp at hchain
    have h2 : (anyLabel (pr.labels.map (fun l => String.mk (lowerL l.data))) "bug"
        || anyLabel (pr.labels.map (fun l => String.mk (lowerL l.data))) "fix")
        = false := by
      cases hx : anyLabel (pr.labels.map (fun l => String.mk (lowerL l.data))) "bug"
        || anyLabel (pr.labels.map (fun l => String.mk (lowerL l.data))) "fix"
      · rfl
      · rw [hx] at hchain; simp [h1] at hchain
    have h3 : anyLabel (pr.labels.map (fun l => String.mk (lowerL l.data)))
        "doc" = false := by
      cases hx : anyLabel (pr.labels.map (fun l => String.mk (lowerL l.data))) "doc"
      · rfl
      · rw [hx] at hchain; simp [h1, h2] at hchain
    have h4 : anyLabel (pr.labels.map (fun l => String.mk (lowerL l.data)))
        "perf" = false := by
      cases hx : anyLabel (pr.labels.map (fun l => String.mk (lowerL l.data))) "perf"
      · rfl
      · rw [hx] at hchain; simp [h1, h2, h3] at hchain
    have h5 : anyLabel (pr.labels.map (fun l => String.mk (lowerL l.data)))
        "refactor" = false := by
      cases hx : anyLabel (pr.labels.map (fun l => String.mk (lowerL l.data)))
        "refactor"
      · rfl
      · rw [hx] at hchain; simp [h1, h2, h3, h4] at hchain
    have h6 : anyLabel (pr.labels.map (fun l => String.mk (lowerL l.data)))
        "test" = false := by
      cases hx : anyLabel (pr.labels.map (fun l => String.mk (lowerL l.data))) "test"
      · rfl
      · rw [hx] at hchain; simp [h1, h2, h3, h4, h5] at hchain
    have h7 : anyLabel (pr.labels.map (fun l => String.mk (lowerL l.data)))
        "build" = false := by
      cases hx : anyLabel (pr.labels.map (fun l => String.mk (lowerL l.data)))
        "build"
      · rfl
      · rw [hx] at hchain; simp [h1, h2, h3, h4, h5, h6] at hchain
    have hbr : (anyLabel (pr.labels.map (fun l => String.mk (lowerL l.data)))
        "breaking"
        || (mergeBody pr (mergeTitle pr (mergeLabels pr c))).breaking)
        = (mergeBody pr (mergeTitle pr (mergeLabels pr c))).breaking := by
      rw [mergeBody_breaking, mergeTitle_breaking,
        mergeLabels_breaking_other pr c hc]
      cases anyLabel (pr.labels.map (fun l => String.mk (lowerL l.data)))
        "breaking" <;> simp
    exact mergeLabels_noop pr _ hty h1 h2 h3 h4 h5 h6 h7 hbr
  · exact mergeLabels_of_not pr _ hty

/-! ### C6 -/

/-- A commit with a confidently-parsed (non-`other`) category, a short
title and no body. -/
def mergeCexCommit : ParsedCommit :=
  { sha := "sha0", type := CommitType.fix, scope := none, message := "x",
    description := none, breaking := false, author := "alice",
    date := "2024-01-01T00:00:00Z", prNumber := some 1, commitUrl := "url0" }

/-- A pull request whose title is longer than the commit title and which
carries a body. -/
def mergeCexPR : PRData :=
  { title := "a much longer PR title", labels := [], body := some "pr body" }

/-- Counterexample to C6 as stated: merging a commit whose category is
not `other` with an external signal does change it — the title-length
rule and the body-adoption rule run for every commit, not only for
`other`-categorized ones. -/
theorem merge_nonother_changed_cex :
    mergeCexCommit.type ≠ CommitType.other
    ∧ (mergeWithPR mergeCexCommit mergeCexPR).message ≠ mergeCexCommit.message
    ∧ (mergeWithPR mergeCexCommit mergeCexPR).description ≠
        mergeCexCommit.description
    ∧ mergeWithPR mergeCexCommit mergeCexPR ≠ mergeCexCommit := by decide

/-- C6 (amended): when the existing category is not `other`, the merge
step never touches category, breaking flag, or any identification field
(sha, scope, author, date, linked PR number, permalink) — only the title
may be replaced (when the external title is strictly longer) and a body
adopted (when the commit has none and the external signal has one). -/
theorem merge_nonother_frame (c : ParsedCommit) (pr : PRData)
    (h : c.type ≠ CommitType.other) :
    (mergeWithPR c pr).type = c.type
    ∧ (mergeWithPR c pr).breaking = c.breaking
    ∧ (mergeWithPR c pr).sha = c.sha
    ∧ (mergeWithPR c pr).scope = c.scope
    ∧ (mergeWithPR c pr).author = c.author
    ∧ (mergeWithPR c pr).date = c.date
    ∧ (mergeWithPR c pr).prNumber = c.prNumber
    ∧ (mergeWithPR c pr).commitUrl = c.commitUrl := by
  unfold mergeWithPR
  rw [mergeLabels_of_not pr c h]
  refine ⟨?_, ?_, ?_, ?_, ?_, ?_, ?_, ?_⟩ <;>
    (unfold mergeBody mergeTitle; split <;> split <;> rfl)

/-- Witness for C6 (amended), at the concrete counterexample commit. -/
theorem merge_nonother_frame_witness :
    mergeCexCommit.type ≠ CommitType.other
    ∧ (mergeWithPR mergeCexCommit mergeCexPR).type = mergeCexCommit.type
    ∧ (mergeWithPR mergeCexCommit mergeCexPR).breaking =
        mergeCexCommit.breaking :=
  ⟨by decide,
   (merge_nonother_frame mergeCexCommit mergeCexPR (by decide)).1,
   (merge_nonother_frame mergeCexCommit mergeCexPR (by decide)).2.1⟩

/-! ### C7 -/

/-- C7: the per-commit merge step is idempotent — applying it twice with
the same external signal (title, label set, body) yields exactly the
same commit record as applying it once. -/
theorem mergeWithPR_idem (c : ParsedCommit) (pr : PRData) :
    mergeWithPR (mergeWithPR c pr) pr = mergeWithPR c pr := by
  unfold mergeWithPR
  rw [mergeLabels_stable, mergeTitle_stable, mergeBody_idem]

/-! ### C9 -/

/-- C9: for every commit collection and options, an output-encoding
request outside the recognized set fails with the unsupported-format
error and produces no output text (`Except.error` carries no payload),
while each recognized encoding (`markdown`, `json`, `text`) produces a
text payload without raising. -/
theorem generateReleaseNotes_format_dispatch (commits : List ParsedCommit)
    (opts : GenOptions) (now : String) :
    ((opts.format = "markdown" ∨ opts.format = "json" ∨ opts.format = "text") →
      ∃ s : String, generateReleaseNotes commits opts now = Except.ok s)
    ∧ ((opts.format ≠ "markdown" ∧ opts.format ≠ "json" ∧ opts.format ≠ "text") →
      generateReleaseNotes commits opts now =
        Except.error ("Unsupported format: " ++ opts.format)) := by
  constructor
  · rintro (h | h | h) <;> (unfold generateReleaseNotes; simp [h])
  · rintro ⟨h1, h2, h3⟩
    unfold generateReleaseNotes
    simp [h1, h2, h3]

/-- Witness for C9: the unrecognized encoding `yaml` errors, while
`markdown` succeeds, on the empty commit collection. -/
theorem generateReleaseNotes_format_dispatch_witness :
    (∃ s : String,
      generateReleaseNotes []
        { version := none, groupBy := GroupBy.type, format := "markdown",
          includeStats := false } "2024-05-06T12:00:00Z" = Except.ok s)
    ∧ generateReleaseNotes []
        { version := none, groupBy := GroupBy.type, format := "yaml",
          includeStats := false } "2024-05-06T12:00:00Z" =
        Except.error "Unsupported format: yaml" := by
  constructor
  · exact (generateReleaseNotes_format_dispatch []
      { version := none, groupBy := GroupBy.type, format := "markdown",
        includeStats := false } "2024-05-06T12:00:00Z").1 (Or.inl rfl)
  · have h := (generateReleaseNotes_format_dispatch []
      { version := none, groupBy := GroupBy.type, format := "yaml",
        includeStats := false } "2024-05-06T12:00:00Z").2
      (by refine ⟨?_, ?_, ?_⟩ <;> decide)
    rw [h]
    rfl

/-! ### Grouping lemmas -/

lemma pushGroup_forall {Q : String → ParsedCommit → Prop} {k : String}
    {x : ParsedCommit} :
    ∀ {g : List (String × List ParsedCommit)},
      (∀ e ∈ g, ∀ c ∈ e.2, Q e.1 c) → Q k x →
      ∀ e ∈ pushGroup k x g, ∀ c ∈ e.2, Q e.1 c := by
  intro g
  induction g with
  | nil =>
    intro _ hx e he c hc
    simp [pushGroup] at he
    subst he
    simp at hc
    subst hc
    exact hx
  | cons hd tl ih =>
    obtain ⟨k1, v⟩ := hd
    intro hg hx e he c hc
    unfold pushGroup at he
    by_cases hk : k1 = k
    · rw [if_pos hk] at he
      rcases List.mem_cons.mp he with he | he
      · subst he
        rcases List.mem_append.mp hc with hc | hc
        · exact hg (k1, v) (List.mem_cons_self _ _) c hc
        · simp at hc
          subst hc
          rw [hk]
          exact hx
      · exact hg e (List.mem_cons_of_mem _ he) c hc
    · rw [if_neg hk] at he
      rcases List.mem_cons.mp he with he | he
      · subst he
        exact hg (k1, v) (List.mem_cons_self _ _) c hc
      · exact ih (fun e1 he1 => hg e1 (List.mem_cons_of_mem _ he1)) hx e he c hc

lemma foldl_pushGroup_forall {key : ParsedCommit → String}
    {Q : String → ParsedCommit → Prop} :
    ∀ (l : List ParsedCommit) (g0 : List (String × List ParsedCommit)),
      (∀ e ∈ g0, ∀ c ∈ e.2, Q e.1 c) → (∀ c ∈ l, Q (key c) c) →
      ∀ e ∈ l.foldl (fun g c => pushGroup (key c) c g) g0, ∀ c ∈ e.2, Q e.1 c := by
  intro l
  induction l with
  | nil => intro g0 hg _ e he; exact hg e he
  | cons c0 t ih =>
    intro g0 hg hl e he
    rw [List.foldl_cons] at he
    exact ih (pushGroup (key c0) c0 g0)
      (pushGroup_forall hg (hl c0 (List.mem_cons_self _ _)))
      (fun c1 hc1 => hl c1 (List.mem_cons_of_mem _ hc1)) e he

lemma groupByKey_forall {key : ParsedCommit → String}
    {Q : String → ParsedCommit → Prop} (l : List ParsedCommit)
    (hl : ∀ c ∈ l, Q (key c) c) :
    ∀ e ∈ groupByKey key l, ∀ c ∈ e.2, Q e.1 c := by
  exact foldl_pushGroup_forall l [] (by intro e he; simp at he) hl

lemma pushGroup_mem_self (k : String) (x : ParsedCommit) :
    ∀ (g : List (String × List ParsedCommit)),
      ∃ e ∈ pushGroup k x g, e.1 = k ∧ x ∈ e.2 := by
  intro g
  induction g with
  | nil => exact ⟨(k, [x]), by simp [pushGroup]⟩
  | cons hd tl ih =>
    obtain ⟨k1, v⟩ := hd
    unfold pushGroup
    by_cases hk : k1 = k
    · rw [if_pos hk]
      exact ⟨(k1, v ++ [x]), List.mem_cons_self _ _, hk, by simp⟩
    · rw [if_neg hk]
      obtain ⟨e, he, hek, hex⟩ := ih
      exact ⟨e, List.mem_cons_of_mem _ he, hek, hex⟩

lemma pushGroup_mem_mono {k : String} {x : ParsedCommit} (k0 : String)
    (x0 : ParsedCommit) {g : List (String × List ParsedCommit)}
    (h : ∃ e ∈ g, e.1 = k ∧ x ∈ e.2) :
    ∃ e ∈ pushGroup k0 x0 g, e.1 = k ∧ x ∈ e.2 := by
  induction g with
  | nil => simp at h
  | cons hd tl ih =>
    obtain ⟨k1, v⟩ := hd
    obtain ⟨e, he, hek, hex⟩ := h
    unfold pushGroup
    by_cases hk : k1 = k0
    · rw [if_pos hk]
      rcases List.mem_cons.mp he with he | he
      · subst he
        exact ⟨(k1, v ++ [x0]), List.mem_cons_self _ _, hek,
          List.mem_append.mpr (Or.inl hex)⟩
      · exact ⟨e, List.mem_cons_of_mem _ he, hek, hex⟩
    · rw [if_neg hk]
      rcases List.mem_cons.mp he with he | he
      · subst he
        exact ⟨(k1, v), List.mem_cons_self _ _, hek, hex⟩
      · obtain ⟨e1, he1, hek1, hex1⟩ := ih ⟨e, he, hek, hex⟩
        exact ⟨e1, List.mem_cons_of_mem _ he1, hek1, hex1⟩

lemma foldl_pushGroup_mem {key : ParsedCommit → String} {k : String}
    {x : ParsedCommit} :
    ∀ (l : List ParsedCommit) (g0 : List (String × List ParsedCommit)),
      (∃ e ∈ g0, e.1 = k ∧ x ∈ e.2) →
      ∃ e ∈ l.foldl (fun g c => pushGroup (key c) c g) g0, e.1 = k ∧ x ∈ e.2 := by
  intro l
  induction l with
  | nil => intro g0 h; exact h
  | cons c0 t ih =>
    intro g0 h
    rw [List.foldl_cons]
    exact ih _ (pushGroup_mem_mono (key c0) c0 h)

lemma groupByKey_mem_self (key : ParsedCommit → String) (l : List ParsedCommit)
    (c : ParsedCommit) (h : c ∈ l) :
    ∃ e ∈ groupByKey key l, e.1 = key c ∧ c ∈ e.2 := by
  obtain ⟨s, t, rfl⟩ := List.append_of_mem h
  unfold groupByKey
  rw [List.foldl_append, List.foldl_cons]
  exact foldl_pushGroup_mem t _ (pushGroup_mem_self (key c) c _)

lemma foldl_typeGroup_forall {P : ParsedCommit → Prop} :
    ∀ (l : List ParsedCommit) (g0 : CommitType → List ParsedCommit),
      (∀ t c, c ∈ g0 t → P c) → (∀ c ∈ l, P c) →
      ∀ t c,
        c ∈ l.foldl
          (fun g c => fun t => if t = typeBucket c then g t ++ [c] else g t) g0 t →
        P c := by
  intro l
  induction l with
  | nil => intro g0 hg _ t c hc; exact hg t c hc
  | cons c0 tl ih =>
    intro g0 hg hl t c hc
    rw [List.foldl_cons] at hc
    refine ih _ ?_ (fun c1 hc1 => hl c1 (List.mem_cons_of_mem _ hc1)) t c hc
    intro t1 c1 hc1
    by_cases ht : t1 = typeBucket c0
    · rw [if_pos ht] at hc1
      rcases List.mem_append.mp hc1 with hc1 | hc1
      · exact hg t1 c1 hc1
      · simp at hc1
        subst hc1
        exact hl c1 (List.mem_cons_self _ _)
    · rw [if_neg ht] at hc1
      exact hg t1 c1 hc1

lemma groupCommitsByType_subset (l : List ParsedCommit) (t : CommitType)
    (c : ParsedCommit) (hc : c ∈ groupCommitsByType l t) : c ∈ l := by
  exact foldl_typeGroup_forall l (fun _ => []) (by intro t1 c1 hc1; simp at hc1)
    (fun c1 hc1 => hc1) t c hc

lemma emittedSections_subset (rn : ReleaseNotes) (gb : GroupBy) :
    ∀ e ∈ emittedSections rn gb, ∀ c ∈ e.2, c ∈ rn.commits := by
  intro e he c hc
  have he1 : e ∈ groupedEntries rn gb := List.mem_of_mem_filter he
  cases gb with
  | type =>
    obtain ⟨t, -, rfl⟩ := List.mem_map.mp he1
    exact groupCommitsByType_subset rn.commits t c hc
  | scope =>
    exact groupByKey_forall (Q := fun _ c => c ∈ rn.commits) rn.commits
      (fun c1 hc1 => hc1) e he1 c hc
  | author =>
    exact groupByKey_forall (Q := fun _ c => c ∈ rn.commits) rn.commits
      (fun c1 hc1 => hc1) e he1 c hc

lemma emittedSections_name (rn : ReleaseNotes) (gb : GroupBy) :
    ∀ e ∈ emittedSections rn gb, e.1 ≠ "breaking" := by
  intro e he
  have hp := List.of_mem_filter he
  intro hb
  rw [hb] at hp
  simp at hp

lemma mem_buildReleaseNotes_commits {commits : List ParsedCommit}
    {v : Option String} {now : String} {st : Bool} {c : ParsedCommit}
    (h : c ∈ (buildReleaseNotes commits v now st).commits) : c.breaking = false := by
  unfold buildReleaseNotes at h
  have := (List.mem_filter.mp h).2
  simpa using this

/-! ### C2 -/

/-- A breaking commit with a scope, for the C2 counterexample. -/
def scBrkCommit : ParsedCommit :=
  { sha := "s1", type := CommitType.fix, scope := some "api", message := "m",
    description := none, breaking := true, author := "alice",
    date := "2024-01-01T00:00:00Z", prNumber := none, commitUrl := "u" }

/-- Counterexample to C2 as stated: under scope grouping, a breaking
commit does NOT appear under its scope bucket in the rendered grouped
sections — the grouped sections are built from the non-breaking
subsequence only, so here no section exists at all. -/
theorem breaking_scope_bucket_cex :
    scBrkCommit.breaking = true
    ∧ scBrkCommit.scope = some "api"
    ∧ ¬(∃ e ∈ emittedSections
          (buildReleaseNotes [scBrkCommit] none "2024-05-06T12:00:00Z" false)
          GroupBy.scope,
        e.1 = "api" ∧ scBrkCommit ∈ e.2) := by
  refine ⟨rfl, rfl, ?_⟩
  intro h
  obtain ⟨e, he, -⟩ := h
  have : emittedSections
      (buildReleaseNotes [scBrkCommit] none "2024-05-06T12:00:00Z" false)
      GroupBy.scope = [] := by decide
  rw [this] at he
  simp at he

/-- C2 (amended): in the rendering pipeline, a breaking commit appears
in the dedicated breaking-changes section and in none of the grouped
sections, under every grouping mode (category, scope and author alike),
because grouping is applied to the non-breaking subsequence; the
grouping functions themselves do not special-case breaking commits —
applied to the full collection, a breaking commit still lands in its
scope bucket and its author bucket. -/
theorem breaking_grouped_rendering (commits : List ParsedCommit)
    (v : Option String) (now : String) (st : Bool) (gb : GroupBy)
    (c : ParsedCommit) (hmem : c ∈ commits) (hbr : c.breaking = true) :
    c ∈ (buildReleaseNotes commits v now st).breakingChanges
    ∧ (∀ e ∈ emittedSections (buildReleaseNotes commits v now st) gb, c ∉ e.2)
    ∧ (∃ e ∈ groupCommitsByScope commits, e.1 = scopeKey c ∧ c ∈ e.2)
    ∧ (∃ e ∈ groupCommitsByAuthor commits, e.1 = c.author ∧ c ∈ e.2) := by
  refine ⟨?_, ?_, ?_, ?_⟩
  · unfold buildReleaseNotes
    exact List.mem_filter.mpr ⟨hmem, hbr⟩
  · intro e he hc
    have h1 := emittedSections_subset _ gb e he c hc
    have h2 := mem_buildReleaseNotes_commits h1
    rw [hbr] at h2
    exact Bool.true_eq_false.mp h2
  · exact groupByKey_mem_self scopeKey commits c hmem
  · exact groupByKey_mem_self (fun c => c.author) commits c hmem

/-- Witness for C2 (amended), at a concrete breaking commit with scope
`api`. -/
theorem breaking_grouped_rendering_witness :
    scBrkCommit ∈ (buildReleaseNotes [scBrkCommit] none "2024-05-06T12:00:00Z"
      false).breakingChanges
    ∧ (∃ e ∈ groupCommitsByScope [scBrkCommit], e.1 = "api" ∧ scBrkCommit ∈ e.2) := by
  have h := breaking_grouped_rendering [scBrkCommit] none "2024-05-06T12:00:00Z"
    false GroupBy.scope scBrkCommit (by simp) rfl
  refine ⟨h.1, ?_⟩
  have h3 := h.2.2.1
  rwa [show scopeKey scBrkCommit = "api" from rfl] at h3

/-! ### C10 -/

/-- C10: in structured-markup rendering (and hence the plain-text
stripping of it), a grouped section named exactly `breaking` is never
emitted, under any grouping mode.  Consequently a non-breaking commit
whose scope is the literal `breaking` appears in no part of the rendered
document (neither the breaking-changes section nor any grouped section)
under scope grouping, and a commit whose author name is the literal
`breaking` appears in no grouped section under author grouping (if it is
non-breaking it appears nowhere in the document at all). -/
theorem breaking_named_group_skipped (commits : List ParsedCommit)
    (v : Option String) (now : String) (st : Bool) :
    (∀ gb : GroupBy,
      ∀ e ∈ emittedSections (buildReleaseNotes commits v now st) gb,
        e.1 ≠ "breaking")
    ∧ (∀ c ∈ commits, c.breaking = false → c.scope = some "breaking" →
        c ∉ (buildReleaseNotes commits v now st).breakingChanges
        ∧ ∀ e ∈ emittedSections (buildReleaseNotes commits v now st)
            GroupBy.scope, c ∉ e.2)
    ∧ (∀ c ∈ commits, c.author = "breaking" →
        (∀ e ∈ emittedSections (buildReleaseNotes commits v now st)
            GroupBy.author, c ∉ e.2)
        ∧ (c.breaking = false →
            c ∉ (buildReleaseNotes commits v now st).breakingChanges)) := by
  refine ⟨?_, ?_, ?_⟩
  · intro gb e he
    exact emittedSections_name _ gb e he
  · intro c _ hbr hsc
    constructor
    · intro hmem
      unfold buildReleaseNotes at hmem
      have := (List.mem_filter.mp hmem).2
      rw [hbr] at this
      exact Bool.false_ne_true this
    · intro e he hc
      have hkey : ∀ e1 ∈ emittedSections (buildReleaseNotes commits v now st)
          GroupBy.scope, ∀ c1 ∈ e1.2, scopeKey c1 = e1.1 := by
        intro e1 he1 c1 hc1
        exact groupByKey_forall (Q := fun n c1 => scopeKey c1 = n) _
          (fun c2 _ => rfl) e1 (List.mem_of_mem_filter he1) c1 hc1
      have h1 := hkey e he c hc
      have h2 : scopeKey c = "breaking" := by
        unfold scopeKey
        rw [hsc]
        rfl
      exact emittedSections_name _ GroupBy.scope e he (h2 ▸ h1.symm)
  · intro c _ hau
    constructor
    · intro e he hc
      have h1 : c.author = e.1 := groupByKey_forall (Q := fun n c1 => c1.author = n) _
        (fun c2 _ => rfl) e (List.mem_of_mem_filter he) c hc
      exact emittedSections_name _ GroupBy.author e he ((hau ▸ h1).symm)
    · intro hbr hmem
      unfold buildReleaseNotes at hmem
      have := (List.mem_filter.mp hmem).2
      rw [hbr] at this
      exact Bool.false_ne_true this

/-- A non-breaking commit whose scope and author are both the literal
string `breaking`. -/
def brkNamedCommit : ParsedCommit :=
  { sha := "s2", type := CommitType.docs, scope := some "breaking",
    message := "m2", description := none, breaking := false,
    author := "breaking", date := "2024-01-01T00:00:00Z", prNumber := none,
    commitUrl := "u2" }

/-- Witness for C10: at a concrete non-breaking commit scoped
`breaking`, the rendered document contains it nowhere — no grouped
scope section is emitted at all. -/
theorem breaking_named_group_skipped_witness :
    brkNamedCommit ∉ (buildReleaseNotes [brkNamedCommit] none
      "2024-05-06T12:00:00Z" false).breakingChanges
    ∧ emittedSections (buildReleaseNotes [brkNamedCommit] none
        "2024-05-06T12:00:00Z" false) GroupBy.scope = [] :=
  ⟨((breaking_named_group_skipped [brkNamedCommit] none "2024-05-06T12:00:00Z"
      false).2.1 brkNamedCommit (by simp) rfl rfl).1,
   by decide⟩

end RNS
